import Mathlib

/-
Verification development for the drawtheyear backend.

The definitions below are shallow embeddings of the TypeScript sources:
  * src/services/permission-service.ts  (role registry, getPermissions, defaultRole)
  * src/models/user-model.ts            (day sub-schema emotions validator, old revision)
  * the newer user model revision       (emotions capacity / name-uniqueness validators,
                                         day date field with regex + moment window check)
  * src/controllers/self-controller.ts  (updateEmotionHandler, deleteEmotionHandler)
  * the users controller revision       (deleteDayHandler)

JavaScript-specific behaviour that matters for the theorems (truthiness of
Promise objects, functions without a return statement evaluating to
undefined, in-place array mutation through aliases) is modelled explicitly
with a small JsValue type and with state passing.
-/

/- ### JavaScript value model

Only the shapes that appear as validator results are needed: booleans,
`undefined` (a function body without a `return` statement), and Promise
objects (the result of calling an `async` function). -/
inductive JsValue where
  | undef : JsValue
  | bool : Bool → JsValue
  | promise : Bool → JsValue
  deriving DecidableEq, Repr

/- JavaScript truthiness of a JsValue — the criterion of a boolean context
such as the callback result inside `Array.prototype.every`: `undefined` is
falsy, a boolean is itself, a Promise object is truthy regardless of the
boolean it will resolve to. -/
def truthy : JsValue → Bool
  | .undef => false
  | .bool b => b
  | .promise _ => true

/- Mongoose's acceptance criterion for a custom validator result
(`SchemaType.prototype.doValidate`): validation passes when
`ok === undefined || ok` — so a validator that returns `undefined`
(a body with no `return` statement) silently passes; a returned Promise is
awaited and its resolved value used. -/
def validatorPasses : JsValue → Bool
  | .undef => true
  | .bool b => b
  | .promise b => b

/- ### Embedded emotion sub-documents (newer user model revision)

Emotion: `id`, `name`, `color`, plus the `deleted` tombstone flag added by
the `deletedPlugin` (default `false`). -/
structure Emotion where
  id : String
  name : String
  color : String
  deleted : Bool
  deriving DecidableEq, Repr

/- Day sub-document as used by the users controller: `date`, `description`
and the emotion id references.  (No tombstone flag is declared for days.) -/
structure Day where
  date : String
  description : String
  emotions : List String
  deriving DecidableEq, Repr

/- HTTP outcomes of the handlers modelled here. -/
inductive HStatus where
  | ok : HStatus
  | created : HStatus
  | noContent : HStatus
  | notFound : HStatus
  deriving DecidableEq, Repr

/- `authUser.emotions.find(emotion => !emotion.deleted && emotion.id === req.params.emotionId)`
from self-controller.ts: first active emotion with the requested id. -/
def findActive (emotions : List Emotion) (emotionId : String) : Option Emotion :=
  emotions.find? (fun emotion => !emotion.deleted && emotion.id == emotionId)

/- In-place mutation of the document found by `find`: the first element
satisfying the predicate is replaced by `f` of itself, the rest of the
array is untouched. -/
def updateFirst (f : Emotion → Emotion) (p : Emotion → Bool) :
    List Emotion → List Emotion
  | [] => []
  | e :: rest => if p e then f e :: rest else e :: updateFirst f p rest

/- Field patch of self-controller.ts updateEmotionHandler:
`if (name != null) emotion.name = name; if (color != null) emotion.color = color;`
A `null`/absent request field is `none`. -/
def applyPatch (name color : Option String) (e : Emotion) : Emotion :=
  let e1 := match name with
    | some n => { e with name := n }
    | none => e
  match color with
  | some c => { e1 with color := c }
  | none => e1

/- self-controller.ts updateEmotionHandler (PATCH /me/emotions/:emotionId):
looks up the first active emotion with the given id; 404 if none; otherwise
patches name/color in place and saves. -/
def updateEmotionHandler (emotions : List Emotion) (emotionId : String)
    (name color : Option String) : HStatus × List Emotion :=
  match findActive emotions emotionId with
  | none => (HStatus.notFound, emotions)
  | some _ =>
    (HStatus.ok,
     updateFirst (applyPatch name color)
       (fun emotion => !emotion.deleted && emotion.id == emotionId) emotions)

/- self-controller.ts deleteEmotionHandler (DELETE /me/emotions/:emotionId):
looks up the first active emotion with the given id; 404 if none; otherwise
sets `emotion.deleted = true` in place and saves (204). -/
def deleteEmotionHandler (emotions : List Emotion) (emotionId : String) :
    HStatus × List Emotion :=
  match findActive emotions emotionId with
  | none => (HStatus.notFound, emotions)
  | some _ =>
    (HStatus.noContent,
     updateFirst (fun emotion => { emotion with deleted := true })
       (fun emotion => !emotion.deleted && emotion.id == emotionId) emotions)

/- users controller deleteDayHandler (DELETE /users/:id/days/:date):
`user.days.find(day => day.date === req.params.date)`; 404 if none;
otherwise `_.remove(user.days, day)` physically removes from the array
every element matching the found day (lodash `_.matches` shorthand, which
on these uniform records is value equality), then saves (204). -/
def deleteDayHandler (days : List Day) (date : String) : HStatus × List Day :=
  match days.find? (fun day => day.date == date) with
  | none => (HStatus.notFound, days)
  | some day => (HStatus.noContent, days.filter (fun d => d ≠ day))

/- ### Permission service (src/services/permission-service.ts)

The role registry is the static configuration
`container.config.services.permissions.roles`: an ordered mapping from role
name to `{ permissions, extends, default }`.  The source field `extends` is
a Lean keyword and is called `extendsRoles` here; a configuration without
an `extends` entry behaves like an empty list (the source guards the
traversal with `?.forEach`). -/
structure RoleConfig where
  permissions : List String
  extendsRoles : List String
  default : Bool
  deriving DecidableEq, Repr

/- Ordered role registry; `Object.keys` enumerates it in insertion order. -/
abbrev Registry := List (String × RoleConfig)

/- `this.container.config.services.permissions.roles[role]`. -/
def lookupRole (reg : Registry) (role : String) : Option RoleConfig :=
  (reg.find? (fun p => p.1 == role)).map (fun p => p.2)

/- Overwrites the stored permission array of `role`; this is the effect of
`perms.push(...)` in getPermissions, since `const perms =
roleConfig.permissions` aliases the configuration array itself. -/
def setRolePerms (reg : Registry) (role : String) (ps : List String) : Registry :=
  reg.map (fun p => if p.1 == role then (p.1, { p.2 with permissions := ps }) else p)

/- PermissionService constructor:
`Object.keys(roles).find(role => roles[role].default)`: the first role
marked default, `undefined` (none) when there is none.  Construction is a
total function: no error path exists. -/
def defaultRoleOf (reg : Registry) : Option String :=
  (reg.find? (fun p => p.2.default)).map (fun p => p.1)

/- One step of `roleConfig.extends?.forEach(extend =>
perms.push(...this.getPermissions(extend)))`: recursively resolve
`extend` against the current (mutated) registry, then append the result
both to the local `perms` accumulator and — through the alias — to the
stored permission array of `role`. -/
def foldExtends (recurse : Registry → String → Option (List String × Registry))
    (role : String) : List String → List String × Registry →
    Option (List String × Registry)
  | [], init => some init
  | extendRole :: rest, init =>
    match recurse init.2 extendRole with
    | none => none
    | some (sub, reg2) =>
      foldExtends recurse role rest
        (init.1 ++ sub, setRolePerms reg2 role (init.1 ++ sub))

/- PermissionService.getPermissions, with an explicit recursion-depth
budget: the source performs unbounded recursion with no visited-set, so a
`none` result means the call tree does not complete within `fuel` nested
calls; the source returns a role/permission pair only on the `some` side.
`none` is also returned when `roles[role]` is undefined (where the source
would fail on the property access). -/
def getPermissionsFuel : Nat → Registry → String → Option (List String × Registry)
  | 0, _, _ => none
  | n + 1, reg, role =>
    match lookupRole reg role with
    | none => none
    | some cfg => foldExtends (getPermissionsFuel n) role cfg.extendsRoles (cfg.permissions, reg)

/- The resolver call tree on `role` never completes, whatever recursion
depth is allowed. -/
def resolverDiverges (reg : Registry) (role : String) : Prop :=
  ∀ n, getPermissionsFuel n reg role = none

/- A two-role registry in which `user` extends `admin` and `admin` extends
`user`, parametric in the stored permission arrays. -/
def cycRegP (pu pa : List String) : Registry :=
  [("user", ⟨pu, ["admin"], true⟩), ("admin", ⟨pa, ["user"], false⟩)]

/- ### Termination of the resolver on acyclic registries

`getPermissions` mutates only stored permission arrays, so the shape of the
registry — which roles exist and what they extend — is invariant during a
call; an `extends` relation that admits a strictly decreasing rank
therefore stays decreasing, and the recursion depth is bounded by the rank
of the starting role. -/
/- Two registries declare the same roles with the same `extends` lists
(their stored permission arrays may differ). -/
def sameShape (a b : Registry) : Prop :=
  ∀ r, (lookupRole b r).map RoleConfig.extendsRoles
    = (lookupRole a r).map RoleConfig.extendsRoles

/- Every role extends only declared roles of strictly smaller rank: an
explicit witness that the `extends` relation is acyclic. -/
def RankedReg (reg : Registry) (rank : String → Nat) : Prop :=
  ∀ r cfg, lookupRole reg r = some cfg → ∀ e ∈ cfg.extendsRoles,
    (lookupRole reg e).isSome = true ∧ rank e < rank r

/- ### Emotions path validators (newer user model revision)

The `emotions` path of the user schema carries two validators, both run by
mongoose on every save of the user document; the path is accepted exactly
when each validator passes (`validatorPasses`). -/
/- `(emotions) => emotions.filter(emotion => !emotion.deleted).length <= 1000`
('Too many emotions'). -/
def emotionsCapacityValidator (emotions : List Emotion) : JsValue :=
  JsValue.bool (decide ((emotions.filter (fun e => !e.deleted)).length ≤ 1000))

/- The uniqueness comparison
`_.uniq(activeEmotions.map(emotion => emotion.name)).length ===
activeEmotions.length` over the active (non-tombstoned) emotions; `_.uniq`
keeps first occurrences. -/
def activeNamesUnique (emotions : List Emotion) : Bool :=
  let activeEmotions := emotions.filter (fun e => !e.deleted)
  (activeEmotions.map Emotion.name).eraseDups.length == activeEmotions.length

/- `(emotions) => { const activeEmotions = emotions.filter(emotion =>
!emotion.deleted); _.uniq(activeEmotions.map(emotion => emotion.name)).length
=== activeEmotions.length }` ('Emotion name already exists').  The arrow
function body is a block statement; the comparison (`activeNamesUnique`) is
computed by a bare expression statement and discarded, and there is no
return statement, so the function returns `undefined`. -/
def emotionNameUniquenessValidator (emotions : List Emotion) : JsValue :=
  let _cmp : Bool := activeNamesUnique emotions
  JsValue.undef

/- Mongoose accepts the `emotions` path exactly when both validators pass;
an `undefined` validator result passes. -/
def emotionsPathAccepted (emotions : List Emotion) : Bool :=
  validatorPasses (emotionsCapacityValidator emotions)
    && validatorPasses (emotionNameUniquenessValidator emotions)

/- ### Day sub-schema emotions validator (old user model revision)

Emotions are separate documents with an `owner` reference. -/
structure EmotionDoc where
  id : String
  owner : String
  deriving DecidableEq, Repr

/- Body of the async callback of the 'Invalid emotion' validator:
`const emotion = await container.db.emotions.findById(emotionId).populate('owner');
if (emotion == null) return false;
await emotion.owner.populate('emotions').execPopulate();
return emotion.owner.emotions.includes(emotion);`
The owner's populated `emotions` virtual is the set of emotion documents
whose `owner` field is that user; `includes` is modelled as membership by
id (reference equality between separately hydrated documents would be
false even more often, which only strengthens the theorem below). -/
def innerEmotionCheck (emotions : List EmotionDoc) (emotionId : String) : Bool :=
  match emotions.find? (fun e => e.id == emotionId) with
  | none => false
  | some emotion =>
    let ownerEmotions := emotions.filter (fun e => e.owner == emotion.owner)
    ownerEmotions.any (fun e => e.id == emotion.id)

/- `(emotionIds) => emotionIds.every(async emotionId => { ... })`: the
async callback returns a Promise object — not a boolean — and `every`
tests the truthiness of that object, which is always true. -/
def dayEmotionsValidator (emotions : List EmotionDoc) (emotionIds : List String) : Bool :=
  emotionIds.all (fun emotionId =>
    truthy (JsValue.promise (innerEmotionCheck emotions emotionId)))

/- ### Day date field (newer user model revision)

The `date` path carries a `match` regex
`^\d{4}\-(0?[1-9]|1[012])\-(0?[1-9]|[12][0-9]|3[01])$` and a validator
`(date) => { const realDate = moment(date); return realDate.isValid() &&
realDate.isBefore(moment()) && realDate.isAfter(moment('2000-01-01')); }`
('Invalid day date').  Mongoose accepts the path exactly when both pass.

Strings are processed as character lists; the hyphen-separated sections of
a candidate string are recovered by an explicit single-character split
(equivalent to `splitOn "-"`, and to how the anchored regex decomposes a
match, since the section alternatives contain only digit characters). -/
def isDigitChar (c : Char) : Bool := decide ('0' ≤ c) && decide (c ≤ '9')

/- Split a character list at every occurrence of `sep`. -/
def splitOnChar (sep : Char) : List Char → List (List Char)
  | [] => [[]]
  | c :: rest =>
    match splitOnChar sep rest with
    | [] => [[]]
    | s :: ss => if c == sep then [] :: s :: ss else (c :: s) :: ss

/- `\d{4}` -/
def yearSection (cs : List Char) : Bool :=
  cs.length == 4 && cs.all isDigitChar

/- `(0?[1-9]|1[012])` applied to a whole section -/
def monthSection (cs : List Char) : Bool :=
  match cs with
  | [c] => decide ('1' ≤ c) && decide (c ≤ '9')
  | [c1, c2] =>
    (c1 == '0' && decide ('1' ≤ c2) && decide (c2 ≤ '9'))
      || (c1 == '1' && (c2 == '0' || c2 == '1' || c2 == '2'))
  | _ => false

/- `(0?[1-9]|[12][0-9]|3[01])` applied to a whole section -/
def daySection (cs : List Char) : Bool :=
  match cs with
  | [c] => decide ('1' ≤ c) && decide (c ≤ '9')
  | [c1, c2] =>
    (c1 == '0' && decide ('1' ≤ c2) && decide (c2 ≤ '9'))
      || ((c1 == '1' || c1 == '2') && isDigitChar c2)
      || (c1 == '3' && (c2 == '0' || c2 == '1'))
  | _ => false

/- The anchored date regex of the `match` option. -/
def dayDateRegexMatches (s : String) : Bool :=
  match splitOnChar '-' s.toList with
  | [y, m, d] => yearSection y && monthSection m && daySection d
  | _ => false

def digitVal (c : Char) : Nat := c.toNat - '0'.toNat

def natOfDigits (cs : List Char) : Nat :=
  cs.foldl (fun a c => a * 10 + digitVal c) 0

/- Gregorian calendar arithmetic used to model moment's notion of date
validity and chronological order. -/
def isLeapYear (y : Nat) : Bool :=
  (y % 4 == 0 && y % 100 != 0) || y % 400 == 0

def daysInMonth (y m : Nat) : Nat :=
  if m == 2 then (if isLeapYear y then 29 else 28)
  else if m == 4 || m == 6 || m == 9 || m == 11 then 30
  else 31

def validCalendarDate (y m d : Nat) : Bool :=
  decide (1 ≤ m) && decide (m ≤ 12) && decide (1 ≤ d) && decide (d ≤ daysInMonth y m)

/- Days from year 0 (proleptic Gregorian) to the midnight of (y, m, d). -/
def daysBeforeYear (y : Nat) : Nat :=
  365 * y + (y + 3) / 4 - (y + 99) / 100 + (y + 399) / 400

def daysBeforeMonth (y m : Nat) : Nat :=
  ((List.range (m - 1)).map (fun i => daysInMonth y (i + 1))).sum

def dayNumber (y m d : Nat) : Nat :=
  daysBeforeYear y + daysBeforeMonth y m + (d - 1)

/- Timestamp (in seconds on the model timeline) of the midnight of a date;
`now` below is an instant on the same timeline. -/
def dateSec (y m d : Nat) : Nat := 86400 * dayNumber y m d

/- `moment(date)` on a hyphen-separated digit string: the numeric year,
month and day of the sections.  Both moment's ISO parsing of a padded
string and the Date fallback used for unpadded sections reject overflowing
component values, which `validCalendarDate` checks below. -/
def momentParse (s : String) : Option (Nat × Nat × Nat) :=
  match splitOnChar '-' s.toList with
  | [y, m, d] =>
    if !y.isEmpty && y.all isDigitChar && !m.isEmpty && m.all isDigitChar
        && !d.isEmpty && d.all isDigitChar then
      some (natOfDigits y, natOfDigits m, natOfDigits d)
    else none
  | _ => none

/- The date validator: `realDate.isValid() && realDate.isBefore(moment())
&& realDate.isAfter(moment('2000-01-01'))`.  Both bounds are strict. -/
def dayDateValidatorAccepts (s : String) (now : Nat) : Bool :=
  match momentParse s with
  | none => false
  | some (y, m, d) =>
    validCalendarDate y m d && decide (dateSec y m d < now)
      && decide (dateSec 2000 1 1 < dateSec y m d)

/- The `date` path accepts a string exactly when the regex matches and the
validator passes. -/
def dayDateAccepted (s : String) (now : Nat) : Bool :=
  dayDateRegexMatches s && dayDateValidatorAccepts s now

/- ### Rendering of calendar dates as padded YYYY-MM-DD strings -/
def digitChar (n : Nat) : Char := Char.ofNat ('0'.toNat + n)

def pad2 (n : Nat) : List Char := [digitChar (n / 10), digitChar (n % 10)]

def pad4 (n : Nat) : List Char :=
  [digitChar (n / 1000 % 10), digitChar (n / 100 % 10),
   digitChar (n / 10 % 10), digitChar (n % 10)]

/- The padded `YYYY-MM-DD` rendering of a calendar triple. -/
def renderDate (y m d : Nat) : String :=
  ⟨pad4 y ++ '-' :: (pad2 m ++ '-' :: pad2 d)⟩

/- ### Theorems -/

example :
    deleteEmotionHandler [⟨"e1", "Joy", "#fff", false⟩] "e1"
      = (HStatus.noContent, [⟨"e1", "Joy", "#fff", true⟩]) := by decide

example :
    deleteEmotionHandler [⟨"e1", "Joy", "#fff", true⟩] "e1"
      = (HStatus.notFound, [⟨"e1", "Joy", "#fff", true⟩]) := by decide

example :
    deleteDayHandler [⟨"2023-01-01", "desc", ["e1"]⟩] "2023-01-01"
      = (HStatus.noContent, []) := by decide

/- ### Helper lemmas about the in-place mutation model -/
theorem updateFirst_length (f : Emotion → Emotion) (p : Emotion → Bool) :
    ∀ es : List Emotion, (updateFirst f p es).length = es.length := by
  intro es
  induction es with
  | nil => rfl
  | cons e rest ih =>
    by_cases h : p e
    · simp [updateFirst, h]
    · simp [updateFirst, h, ih]

theorem forall₂_updateFirst {R : Emotion → Emotion → Prop}
    (f : Emotion → Emotion) (p : Emotion → Bool)
    (hrefl : ∀ e, R e e) (hstep : ∀ e, p e = true → R e (f e)) :
    ∀ es : List Emotion, List.Forall₂ R es (updateFirst f p es) := by
  intro es
  induction es with
  | nil => exact List.Forall₂.nil
  | cons e rest ih =>
    by_cases h : p e
    · simpa [updateFirst, h] using
        List.Forall₂.cons (hstep e h) (List.forall₂_same.2 fun x _ => hrefl x)
    · simpa [updateFirst, h] using List.Forall₂.cons (hrefl e) ih

theorem applyPatch_id (name color : Option String) (e : Emotion) :
    (applyPatch name color e).id = e.id := by
  cases name <;> cases color <;> rfl

theorem applyPatch_deleted (name color : Option String) (e : Emotion) :
    (applyPatch name color e).deleted = e.deleted := by
  cases name <;> cases color <;> rfl

theorem applyPatch_name_none (color : Option String) (e : Emotion) :
    (applyPatch none color e).name = e.name := by
  cases color <;> rfl

theorem applyPatch_color_none (name : Option String) (e : Emotion) :
    (applyPatch name none e).color = e.color := by
  cases name <;> rfl

/-- C10: A PATCH update of an emotion is a frame-preserving field patch: the
result list is pointwise related to the input list so that every element
keeps its `id` and its `deleted` flag, every element that is not the active
emotion addressed by the request is entirely unchanged, and when the `name`
(resp. `color`) request field is absent every element keeps its stored
`name` (resp. `color`). -/
theorem updateEmotionHandler_frame (es : List Emotion) (eid : String)
    (name color : Option String) :
    List.Forall₂ (fun e e' =>
        e'.id = e.id ∧ e'.deleted = e.deleted ∧
        (¬(e.deleted = false ∧ e.id = eid) → e' = e) ∧
        (name = none → e'.name = e.name) ∧
        (color = none → e'.color = e.color))
      es (updateEmotionHandler es eid name color).2 := by
  unfold updateEmotionHandler
  cases hfind : findActive es eid with
  | none =>
    exact List.forall₂_same.2 fun e _ => by
      refine ⟨rfl, rfl, fun _ => rfl, fun _ => rfl, fun _ => rfl⟩
  | some e0 =>
    refine forall₂_updateFirst _ _ ?_ ?_ es
    · intro e
      exact ⟨rfl, rfl, fun _ => rfl, fun _ => rfl, fun _ => rfl⟩
    · intro e hp
      have hmatch : e.deleted = false ∧ e.id = eid := by
        simpa using hp
      refine ⟨applyPatch_id _ _ _, applyPatch_deleted _ _ _, ?_, ?_, ?_⟩
      · intro hcontra; exact absurd hmatch hcontra
      · intro hn; subst hn; exact applyPatch_name_none _ _
      · intro hc; subst hc; exact applyPatch_color_none _ _

/-- Witness for C10 at a concrete input: a request with an absent color
field patches only the name of the addressed emotion. -/
theorem updateEmotionHandler_frame_witness :
    List.Forall₂ (fun e e' : Emotion =>
        e'.id = e.id ∧ e'.deleted = e.deleted ∧
        (¬(e.deleted = false ∧ e.id = "e1") → e' = e) ∧
        ((some "Bliss" : Option String) = none → e'.name = e.name) ∧
        ((none : Option String) = none → e'.color = e.color))
      [⟨"e1", "Joy", "#fff", false⟩, ⟨"e2", "Sad", "#00f", false⟩]
      (updateEmotionHandler
        [⟨"e1", "Joy", "#fff", false⟩, ⟨"e2", "Sad", "#00f", false⟩]
        "e1" (some "Bliss") none).2 :=
  updateEmotionHandler_frame _ "e1" (some "Bliss") none

/-- C3 counterexample: soft-deleting the same emotion twice is not
idempotent success: the first call succeeds (204) and tombstones the
emotion, but the second call fails with 404 Not Found, because the handler
only looks up active (non-tombstoned) emotions. -/
theorem deleteEmotion_second_call_fails :
    (deleteEmotionHandler [⟨"e1", "Joy", "#fff", false⟩] "e1").1
        = HStatus.noContent ∧
    deleteEmotionHandler
        (deleteEmotionHandler [⟨"e1", "Joy", "#fff", false⟩] "e1").2 "e1"
      = (HStatus.notFound,
         (deleteEmotionHandler [⟨"e1", "Joy", "#fff", false⟩] "e1").2) := by
  decide

theorem findActive_updateFirst_tombstone_eq_none
    (eid : String) :
    ∀ es : List Emotion, (es.map Emotion.id).Nodup →
      (findActive es eid).isSome = true →
      findActive
        (updateFirst (fun e => { e with deleted := true })
          (fun e => !e.deleted && e.id == eid) es) eid = none := by
  intro es
  induction es with
  | nil => intro _ h; simp [findActive] at h
  | cons a rest ih =>
    intro hnodup hsome
    rw [List.map_cons, List.nodup_cons] at hnodup
    by_cases hp : (!a.deleted && a.id == eid) = true
    · have haid : a.id = eid := by
        have h2 := hp
        simp only [Bool.and_eq_true, beq_iff_eq] at h2
        exact h2.2
      rw [updateFirst, if_pos hp]
      unfold findActive
      rw [List.find?_eq_none]
      intro x hx
      rcases List.mem_cons.mp hx with hxa | hxr
      · subst hxa; simp
      · simp only [Bool.and_eq_true, Bool.not_eq_true', beq_iff_eq, not_and]
        intro _ hxid
        apply absurd ?_ hnodup.1
        rw [haid, ← hxid]
        exact List.mem_map_of_mem Emotion.id hxr
    · rw [updateFirst, if_neg hp]
      have hsome' : (findActive rest eid).isSome = true := by
        unfold findActive at hsome ⊢
        rw [List.find?_cons_of_neg] at hsome
        · exact hsome
        · exact hp
      unfold findActive
      rw [List.find?_cons_of_neg]
      · exact ih hnodup.2 hsome'
      · exact hp

/-- C3 (amended): soft-deleting an emotion twice leaves the stored state
unchanged, but the second call is not a successful no-op: assuming the
owner's emotion ids are pairwise distinct, whenever the first delete
succeeds, the second delete of the same id over the resulting state fails
with 404 Not Found and returns the state unchanged. -/
theorem deleteEmotion_twice (es : List Emotion) (eid : String)
    (hnodup : (es.map Emotion.id).Nodup)
    (h : (deleteEmotionHandler es eid).1 = HStatus.noContent) :
    deleteEmotionHandler (deleteEmotionHandler es eid).2 eid
      = (HStatus.notFound, (deleteEmotionHandler es eid).2) := by
  have hsome : (findActive es eid).isSome = true := by
    unfold deleteEmotionHandler at h
    cases hfind : findActive es eid with
    | none => rw [hfind] at h; simp at h
    | some e0 => simp
  have hres :
      (deleteEmotionHandler es eid).2
        = updateFirst (fun e => { e with deleted := true })
            (fun e => !e.deleted && e.id == eid) es := by
    unfold deleteEmotionHandler
    cases hfind : findActive es eid with
    | none => rw [hfind] at hsome; simp at hsome
    | some e0 => rfl
  rw [hres]
  unfold deleteEmotionHandler
  rw [findActive_updateFirst_tombstone_eq_none eid es hnodup hsome]

/-- Witness for C3 at a concrete input: the second delete of emotion `e1`
fails with 404 and does not change the stored collection. -/
theorem deleteEmotion_twice_witness :
    deleteEmotionHandler
        (deleteEmotionHandler
          [⟨"e1", "Joy", "#fff", false⟩, ⟨"e2", "Sad", "#00f", false⟩] "e1").2
        "e1"
      = (HStatus.notFound,
         (deleteEmotionHandler
           [⟨"e1", "Joy", "#fff", false⟩, ⟨"e2", "Sad", "#00f", false⟩] "e1").2) :=
  deleteEmotion_twice _ "e1" (by decide) (by decide)

/-- C4 counterexample: deleting a day does not tombstone it in place — the
day is physically removed from the owner's stored collection: deleting the
only day of the collection succeeds (204) and leaves the collection empty. -/
theorem deleteDay_removes_physically :
    deleteDayHandler [⟨"2023-01-01", "desc", ["e1"]⟩] "2023-01-01"
      = (HStatus.noContent, []) := by decide

/-- C4 (amended): deleting an embedded emotion tombstones it in place — the
collection keeps its length, the first active emotion with the requested id
gets its `deleted` flag set, and every other element is unchanged — but
deleting a day physically removes it: on success some day with the
requested date disappears from the stored collection, while days with a
different date are kept. -/
theorem delete_tombstones_emotions_removes_days :
    (∀ (es : List Emotion) (eid : String),
      ((deleteEmotionHandler es eid).2).length = es.length) ∧
    (∀ (es : List Emotion) (eid : String) (e : Emotion), e ∈ es →
      ¬(e.deleted = false ∧ e.id = eid) → e ∈ (deleteEmotionHandler es eid).2) ∧
    (∀ (es : List Emotion) (eid : String),
      (deleteEmotionHandler es eid).1 = HStatus.noContent →
      ∃ l e r, es = l ++ e :: r ∧ e.deleted = false ∧ e.id = eid ∧
        (deleteEmotionHandler es eid).2 = l ++ { e with deleted := true } :: r) ∧
    (∀ (ds : List Day) (date : String),
      (deleteDayHandler ds date).1 = HStatus.noContent →
      ∃ d, d ∈ ds ∧ d.date = date ∧ d ∉ (deleteDayHandler ds date).2) ∧
    (∀ (ds : List Day) (date : String) (d : Day), d ∈ ds → d.date ≠ date →
      d ∈ (deleteDayHandler ds date).2) := by
  refine ⟨?_, ?_, ?_, ?_, ?_⟩
  · intro es eid
    unfold deleteEmotionHandler
    cases hfind : findActive es eid with
    | none => rfl
    | some e0 => exact updateFirst_length _ _ es
  · intro es eid e hmem hnot
    unfold deleteEmotionHandler
    cases hfind : findActive es eid with
    | none => exact hmem
    | some e0 =>
      simp only
      clear hfind
      induction es with
      | nil => simp at hmem
      | cons a rest ih =>
        by_cases hp : (!a.deleted && a.id == eid) = true
        · rcases List.mem_cons.mp hmem with hea | her
          · exfalso
            apply hnot
            subst hea
            simpa [Bool.and_eq_true, beq_iff_eq] using hp
          · rw [updateFirst, if_pos hp]
            exact List.mem_cons_of_mem _ her
        · rw [updateFirst, if_neg hp]
          rcases List.mem_cons.mp hmem with hea | her
          · exact hea ▸ List.mem_cons_self _ _
          · exact List.mem_cons_of_mem _ (ih her)
  · intro es eid
    induction es with
    | nil => intro h; simp [deleteEmotionHandler, findActive] at h
    | cons a rest ih =>
      intro h
      by_cases hp : (!a.deleted && a.id == eid) = true
      · have hmatch : a.deleted = false ∧ a.id = eid := by
          simpa [Bool.and_eq_true, beq_iff_eq] using hp
        refine ⟨[], a, rest, rfl, hmatch.1, hmatch.2, ?_⟩
        unfold deleteEmotionHandler findActive
        rw [List.find?_cons_of_pos]
        · simp only [List.nil_append]
          rw [updateFirst, if_pos hp]
        · exact hp
      · have hstep :
            deleteEmotionHandler (a :: rest) eid
              = ((deleteEmotionHandler rest eid).1,
                 match findActive rest eid with
                 | none => a :: rest
                 | some _ => a :: (deleteEmotionHandler rest eid).2) := by
          unfold deleteEmotionHandler findActive
          rw [List.find?_cons_of_neg]
          · cases hfind : List.find? (fun e => !e.deleted && e.id == eid) rest with
            | none => simp [hfind, updateFirst, hp]
            | some e0 => simp [hfind, updateFirst, hp]
          · exact hp
        rw [hstep] at h ⊢
        simp only at h
        rcases ih h with ⟨l, e, r, hsplit, hdel, hid, hres⟩
        cases hfind : findActive rest eid with
        | none =>
          exfalso
          unfold deleteEmotionHandler at h
          rw [hfind] at h
          simp at h
        | some e0 =>
          refine ⟨a :: l, e, r, ?_, hdel, hid, ?_⟩
          · rw [hsplit, List.cons_append]
          · simp only [hfind]
            rw [List.cons_append]
            exact congrArg (a :: ·) hres
  · intro ds date h
    unfold deleteDayHandler at h ⊢
    cases hfind : ds.find? (fun day => day.date == date) with
    | none => rw [hfind] at h; simp at h
    | some day =>
      have hmem : day ∈ ds := List.mem_of_find?_eq_some hfind
      have hdate : day.date = date := by
        have := List.find?_some hfind
        simpa using this
      refine ⟨day, hmem, hdate, ?_⟩
      simp [hfind]
  · intro ds date d hmem hdate
    unfold deleteDayHandler
    cases hfind : ds.find? (fun day => day.date == date) with
    | none => exact hmem
    | some day =>
      have hdday : day.date = date := by
        have := List.find?_some hfind
        simpa using this
      simp only [List.mem_filter, decide_eq_true_eq]
      refine ⟨hmem, ?_⟩
      intro hd
      exact hdate (hd ▸ hdday)

/-- Witness for C4 at a concrete input: the emotion delete keeps the
collection length, and the day delete makes a day with the requested date
disappear from the collection. -/
theorem delete_tombstones_emotions_removes_days_witness :
    ((deleteEmotionHandler [⟨"e1", "Joy", "#fff", false⟩] "e1").2).length
        = [(⟨"e1", "Joy", "#fff", false⟩ : Emotion)].length ∧
    ∃ d, d ∈ [(⟨"2023-01-01", "desc", ["e1"]⟩ : Day)] ∧ d.date = "2023-01-01" ∧
      d ∉ (deleteDayHandler [⟨"2023-01-01", "desc", ["e1"]⟩] "2023-01-01").2 :=
  ⟨delete_tombstones_emotions_removes_days.1 _ "e1",
   delete_tombstones_emotions_removes_days.2.2.2.1 _ "2023-01-01" (by decide)⟩

example : getPermissionsFuel 3 (cycRegP ["abcd"] ["efgh"]) "user" = none := by decide

example :
    getPermissionsFuel 2
      [("user", ⟨["abcd"], [], true⟩), ("admin", ⟨["efgh"], ["user"], false⟩)]
      "admin"
    = some (["efgh", "abcd"],
        [("user", ⟨["abcd"], [], true⟩), ("admin", ⟨["efgh", "abcd"], ["user"], false⟩)]) := by
  decide

/-- C9 counterexample: constructing the service over a configuration with
zero roles marked default, or with two roles marked default, does not fail:
`defaultRoleOf` is a total function with no error path; with zero defaults
it yields `none` (the `as Role` cast of `undefined`), and with two defaults
it silently yields the first one. -/
theorem defaultRole_no_load_validation :
    defaultRoleOf
        [("user", ⟨["abcd"], [], false⟩), ("admin", ⟨["efgh"], [], false⟩)]
      = none ∧
    defaultRoleOf
        [("user", ⟨["abcd"], [], true⟩), ("admin", ⟨["efgh"], [], true⟩)]
      = some "user" := by
  decide

/-- C9 (amended): registry load performs no default-role validation: the
constructor always succeeds and `defaultRole` is the name of the first role
of the registry (in key order) whose configuration is marked default —
equivalently the head of the sublist of default-marked roles — and is
undefined (`none`) exactly when no role is marked default. -/
theorem defaultRoleOf_eq_first_default (reg : Registry) :
    defaultRoleOf reg
      = ((reg.filter (fun p => p.2.default)).head?).map (fun p => p.1) := by
  induction reg with
  | nil => rfl
  | cons p rest ih =>
    by_cases h : p.2.default = true
    · unfold defaultRoleOf
      rw [List.find?_cons_of_pos]
      · rw [List.filter_cons_of_pos]
        · rfl
        · exact h
      · exact h
    · have h' : p.2.default = false := by
        simpa using h
      unfold defaultRoleOf at ih ⊢
      rw [List.find?_cons_of_neg, List.filter_cons_of_neg]
      · exact ih
      · simp [h']
      · simp [h']

/-- C8: the resolver is not side-effect-free. `const perms =
roleConfig.permissions` aliases the configuration array, and
`perms.push(...)` therefore appends the inherited permissions to the role
registry itself.  With `admin` extending `user`, the first resolve of
`admin` (depth 2 suffices) returns `[efgh, abcd]` and leaves the registry
with `admin.permissions = [efgh, abcd]`; an immediately following second
resolve of `admin` then returns `[efgh, abcd, abcd]` — a different list —
and grows the registry again. -/
theorem getPermissions_mutates_registry :
    getPermissionsFuel 2
        [("user", ⟨["abcd"], [], true⟩), ("admin", ⟨["efgh"], ["user"], false⟩)]
        "admin"
      = some (["efgh", "abcd"],
          [("user", ⟨["abcd"], [], true⟩),
           ("admin", ⟨["efgh", "abcd"], ["user"], false⟩)]) ∧
    [("user", (⟨["abcd"], [], true⟩ : RoleConfig)),
     ("admin", ⟨["efgh", "abcd"], ["user"], false⟩)]
      ≠ [("user", ⟨["abcd"], [], true⟩), ("admin", ⟨["efgh"], ["user"], false⟩)] ∧
    getPermissionsFuel 2
        [("user", ⟨["abcd"], [], true⟩), ("admin", ⟨["efgh", "abcd"], ["user"], false⟩)]
        "admin"
      = some (["efgh", "abcd", "abcd"],
          [("user", ⟨["abcd"], [], true⟩),
           ("admin", ⟨["efgh", "abcd", "abcd"], ["user"], false⟩)]) := by
  decide

theorem lookupRole_cycRegP_user (pu pa : List String) :
    lookupRole (cycRegP pu pa) "user" = some ⟨pu, ["admin"], true⟩ := by
  unfold lookupRole cycRegP
  rw [List.find?_cons_of_pos]
  · rfl
  · simp

theorem lookupRole_cycRegP_admin (pu pa : List String) :
    lookupRole (cycRegP pu pa) "admin" = some ⟨pa, ["user"], false⟩ := by
  unfold lookupRole cycRegP
  rw [List.find?_cons_of_neg, List.find?_cons_of_pos]
  · rfl
  · simp
  · simp

theorem cycRegP_diverges (n : Nat) : ∀ pu pa : List String,
    getPermissionsFuel n (cycRegP pu pa) "user" = none ∧
    getPermissionsFuel n (cycRegP pu pa) "admin" = none := by
  induction n with
  | zero => intro pu pa; exact ⟨rfl, rfl⟩
  | succ n ih =>
    intro pu pa
    constructor
    · show getPermissionsFuel (n + 1) (cycRegP pu pa) "user" = none
      unfold getPermissionsFuel
      rw [lookupRole_cycRegP_user]
      show foldExtends (getPermissionsFuel n) "user" ["admin"] (pu, cycRegP pu pa) = none
      unfold foldExtends
      rw [(ih pu pa).2]
    · show getPermissionsFuel (n + 1) (cycRegP pu pa) "admin" = none
      unfold getPermissionsFuel
      rw [lookupRole_cycRegP_admin]
      show foldExtends (getPermissionsFuel n) "admin" ["user"] (pa, cycRegP pu pa) = none
      unfold foldExtends
      rw [(ih pu pa).1]

/-- C1 counterexample: on the cyclic registry where role `user` extends
`admin` and `admin` extends `user`, resolving the permissions of `user`
does not terminate: for every recursion depth budget the call tree is
still incomplete, so the resolver neither raises a ConfigError nor returns
a partial closure — it recurses forever. -/
theorem getPermissions_diverges_on_cycle :
    resolverDiverges (cycRegP ["abcd"] ["efgh"]) "user" :=
  fun n => (cycRegP_diverges n ["abcd"] ["efgh"]).1

theorem sameShape_refl (a : Registry) : sameShape a a := fun _ => rfl

theorem sameShape_trans {a b c : Registry}
    (h1 : sameShape a b) (h2 : sameShape b c) : sameShape a c :=
  fun r => (h2 r).trans (h1 r)

theorem sameShape_setRolePerms (reg : Registry) (role : String) (ps : List String) :
    sameShape reg (setRolePerms reg role ps) := by
  intro r
  unfold lookupRole setRolePerms
  rw [List.find?_map]
  have hpf : ((fun p : String × RoleConfig => p.1 == r)
        ∘ (fun p : String × RoleConfig =>
            if p.1 == role then (p.1, { p.2 with permissions := ps }) else p))
      = (fun p : String × RoleConfig => p.1 == r) := by
    funext q
    by_cases h : q.1 = role
    · simp [h]
    · simp [h]
  rw [hpf]
  cases hf : reg.find? (fun p => p.1 == r) with
  | none => rfl
  | some q =>
    by_cases h : q.1 = role
    · simp [h]
    · simp [h]

theorem sameShape_isSome {a b : Registry} (h : sameShape a b) (r : String) :
    (lookupRole b r).isSome = (lookupRole a r).isSome := by
  have hr := h r
  cases ha : lookupRole a r <;> cases hb : lookupRole b r <;>
    rw [ha, hb] at hr <;> simp_all

theorem sameShape_lookup_exts {a b : Registry} (h : sameShape a b)
    {r : String} {cfg' : RoleConfig} (hb : lookupRole b r = some cfg') :
    ∃ cfg, lookupRole a r = some cfg ∧ cfg.extendsRoles = cfg'.extendsRoles := by
  have hr := h r
  rw [hb] at hr
  cases ha : lookupRole a r with
  | none => rw [ha] at hr; simp at hr
  | some cfg =>
    rw [ha] at hr
    simp only [Option.map_some', Option.some.injEq] at hr
    exact ⟨cfg, rfl, hr.symm⟩

theorem rankedReg_of_sameShape {a b : Registry} {rank : String → Nat}
    (h : sameShape a b) (hr : RankedReg a rank) : RankedReg b rank := by
  intro r cfg' hb e he
  obtain ⟨cfg, ha, hext⟩ := sameShape_lookup_exts h hb
  have hcond := hr r cfg ha e (by rw [hext]; exact he)
  refine ⟨?_, hcond.2⟩
  rw [sameShape_isSome h e]
  exact hcond.1

theorem getPermissionsFuel_total (rank : String → Nat) :
    ∀ n, ∀ reg role, RankedReg reg rank → (lookupRole reg role).isSome = true →
      rank role < n →
      ∃ ps reg', getPermissionsFuel n reg role = some (ps, reg') ∧ sameShape reg reg' := by
  intro n
  induction n with
  | zero => intro reg role _ _ h; exact absurd h (Nat.not_lt_zero _)
  | succ n ih =>
    intro reg role hranked hsome hlt
    obtain ⟨cfg, hcfg⟩ := Option.isSome_iff_exists.mp hsome
    have hexts : ∀ e ∈ cfg.extendsRoles,
        (lookupRole reg e).isSome = true ∧ rank e < rank role :=
      hranked role cfg hcfg
    suffices h : ∀ (exts : List String), (∀ e ∈ exts,
          (lookupRole reg e).isSome = true ∧ rank e < rank role) →
        ∀ (acc : List String) (regc : Registry), sameShape reg regc →
        ∃ ps reg', foldExtends (getPermissionsFuel n) role exts (acc, regc)
            = some (ps, reg') ∧ sameShape reg reg' by
      obtain ⟨ps, reg', hfold, hshape⟩ :=
        h cfg.extendsRoles hexts cfg.permissions reg (sameShape_refl reg)
      refine ⟨ps, reg', ?_, hshape⟩
      show getPermissionsFuel (n + 1) reg role = some (ps, reg')
      unfold getPermissionsFuel
      rw [hcfg]
      exact hfold
    intro exts
    induction exts with
    | nil => intro _ acc regc hshape; exact ⟨acc, regc, rfl, hshape⟩
    | cons e rest ihe =>
      intro hall acc regc hshape
      have he := hall e (List.mem_cons_self e rest)
      have hsome_e : (lookupRole regc e).isSome = true := by
        rw [sameShape_isSome hshape e]
        exact he.1
      have hranked_c : RankedReg regc rank := rankedReg_of_sameShape hshape hranked
      have hlt_e : rank e < n := lt_of_lt_of_le he.2 (Nat.lt_succ_iff.mp hlt)
      obtain ⟨sub, reg2, hrec, hshape2⟩ := ih regc e hranked_c hsome_e hlt_e
      have hshape3 : sameShape reg (setRolePerms reg2 role (acc ++ sub)) :=
        sameShape_trans (sameShape_trans hshape hshape2)
          (sameShape_setRolePerms reg2 role (acc ++ sub))
      obtain ⟨ps, reg', hfold, hshape'⟩ :=
        ihe (fun x hx => hall x (List.mem_cons_of_mem e hx))
          (acc ++ sub) (setRolePerms reg2 role (acc ++ sub)) hshape3
      refine ⟨ps, reg', ?_, hshape'⟩
      show foldExtends (getPermissionsFuel n) role (e :: rest) (acc, regc)
        = some (ps, reg')
      unfold foldExtends
      rw [hrec]
      exact hfold

/- RankedReg follows from the corresponding decidable condition on the
registry entries themselves. -/
theorem rankedReg_of_entries (reg : Registry) (rank : String → Nat)
    (h : ∀ p ∈ reg, ∀ e ∈ p.2.extendsRoles,
      (lookupRole reg e).isSome = true ∧ rank e < rank p.1) :
    RankedReg reg rank := by
  intro r cfg hl e he
  unfold lookupRole at hl
  cases hf : List.find? (fun p => p.1 == r) reg with
  | none => rw [hf] at hl; simp at hl
  | some p =>
    rw [hf] at hl
    simp only [Option.map_some', Option.some.injEq] at hl
    have hmem := List.mem_of_find?_eq_some hf
    have hname : p.1 = r := by
      have := List.find?_some hf
      simpa using this
    have hcond := h p hmem e (by rw [hl]; exact he)
    rw [hname] at hcond
    exact hcond

/-- C1 (amended): the resolver performs no cycle detection, so termination
holds only for acyclic registries: whenever the `extends` relation of the
registry admits a strictly decreasing rank into the naturals (every
extended role is declared and has smaller rank), resolving any declared
role terminates — a recursion budget of `rank role + 1` nested calls
completes with a result — whereas on a cyclic registry (role `user`
extends `admin` and `admin` extends `user`) resolution does not terminate
and neither raises a ConfigError nor returns a partial closure. -/
theorem getPermissions_terminates_acyclic (reg : Registry) (rank : String → Nat)
    (role : String) (hranked : RankedReg reg rank)
    (hrole : (lookupRole reg role).isSome = true) :
    ∃ ps reg', getPermissionsFuel (rank role + 1) reg role = some (ps, reg') := by
  obtain ⟨ps, reg', h, _⟩ :=
    getPermissionsFuel_total rank (rank role + 1) reg role hranked hrole
      (Nat.lt_succ_self _)
  exact ⟨ps, reg', h⟩

/-- Witness for C1 at a concrete input: on the acyclic registry where
`admin` extends `user`, resolving `admin` with recursion budget 2
completes. -/
theorem getPermissions_terminates_acyclic_witness :
    ∃ ps reg', getPermissionsFuel
        ((fun r : String => if r == "admin" then 1 else 0) "admin" + 1)
        [("user", ⟨["abcd"], [], true⟩), ("admin", ⟨["efgh"], ["user"], false⟩)]
        "admin" = some (ps, reg') :=
  getPermissions_terminates_acyclic
    [("user", ⟨["abcd"], [], true⟩), ("admin", ⟨["efgh"], ["user"], false⟩)]
    (fun r : String => if r == "admin" then 1 else 0) "admin"
    (rankedReg_of_entries _ _ (by decide)) (by decide)

theorem emotionsPathAccepted_eq_capacity (emotions : List Emotion) :
    emotionsPathAccepted emotions
      = decide ((emotions.filter (fun e => !e.deleted)).length ≤ 1000) := by
  unfold emotionsPathAccepted
  rw [show validatorPasses (emotionNameUniquenessValidator emotions) = true from rfl]
  exact Bool.and_true _

/-- C5: the name-uniqueness validator of the emotions path can never fail:
its body computes the uniqueness comparison but never returns it, so the
validator returns `undefined`, which mongoose's doValidate treats as
passing — for every input.  In particular a post-state holding two active
emotions both named `Joy` (adding `Joy` when an active `Joy` already
exists) is accepted instead of being rejected with DuplicateKey, even
though the comparison the validator was meant to return is false there;
the pairwise-distinct invariant on active names is not enforced. -/
theorem emotionNameUniqueness_never_rejects :
    (∀ emotions : List Emotion,
      validatorPasses (emotionNameUniquenessValidator emotions) = true) ∧
    activeNamesUnique
        [⟨"e1", "Joy", "#fff", false⟩, ⟨"e2", "Joy", "#0f0", false⟩] = false ∧
    emotionsPathAccepted
        [⟨"e1", "Joy", "#fff", false⟩, ⟨"e2", "Joy", "#0f0", false⟩] = true := by
  refine ⟨fun emotions => rfl, by decide, by decide⟩

/-- C6: the emotions path is accepted exactly when the active
(non-tombstoned) emotion count is at most 1000 — the capacity validator
rejects above 1000 ('Too many emotions'), while the name-uniqueness
validator passes on every input — so a mutation reaching 1001 active
emotions fails, one reaching exactly 1000 succeeds, and a tombstoned
emotion never changes the verdict. -/
theorem emotionsCapacity_limit (emotions : List Emotion) :
    (emotionsPathAccepted emotions = true
      ↔ (emotions.filter (fun e => !e.deleted)).length ≤ 1000) ∧
    (∀ e : Emotion, e.deleted = true →
      emotionsPathAccepted (e :: emotions) = emotionsPathAccepted emotions) := by
  constructor
  · rw [emotionsPathAccepted_eq_capacity]
    exact decide_eq_true_iff
  · intro e he
    rw [emotionsPathAccepted_eq_capacity, emotionsPathAccepted_eq_capacity]
    rw [List.filter_cons_of_neg]
    simp [he]

/-- Witness for C6 at a concrete input: prepending a tombstoned emotion
does not change the acceptance verdict, and a one-active-emotion state is
accepted. -/
theorem emotionsCapacity_limit_witness :
    emotionsPathAccepted
        [⟨"e2", "Old", "#000", true⟩, ⟨"e1", "Joy", "#fff", false⟩]
      = emotionsPathAccepted [⟨"e1", "Joy", "#fff", false⟩] ∧
    emotionsPathAccepted [⟨"e1", "Joy", "#fff", false⟩] = true :=
  ⟨(emotionsCapacity_limit [⟨"e1", "Joy", "#fff", false⟩]).2
     ⟨"e2", "Old", "#000", true⟩ rfl,
   (emotionsCapacity_limit [⟨"e1", "Joy", "#fff", false⟩]).1.mpr (by decide)⟩

/-- C2: the 'Invalid emotion' validator of the day sub-schema never
rejects anything: `Array.prototype.every` applied to an async callback
tests the truthiness of the returned Promise objects, which are always
truthy, so every list of emotion ids is accepted — in particular a day
referencing an id that resolves to no emotion at all (for which the inner,
never-awaited check yields false) is accepted rather than rejected. -/
theorem dayEmotionsValidator_always_passes :
    (∀ (emotions : List EmotionDoc) (emotionIds : List String),
      dayEmotionsValidator emotions emotionIds = true) ∧
    innerEmotionCheck [] "unknownId" = false ∧
    dayEmotionsValidator [] ["unknownId"] = true := by
  refine ⟨?_, rfl, rfl⟩
  intro emotions emotionIds
  unfold dayEmotionsValidator
  exact List.all_eq_true.mpr fun x _ => rfl

example : dayDateRegexMatches "2023-06-15" = true := by decide

example : dayDateRegexMatches "2023-6-15" = true := by decide

example : dayDateRegexMatches "2023-13-15" = false := by decide

example : momentParse "2023-06-15" = some (2023, 6, 15) := by decide

/-- C7 counterexample: with the current instant at noon of 2023-06-15, the
day "2000-01-01" — syntactically valid, a real calendar date, and inside
the inclusive window `[2000-01-01, now]` claimed by the spec — is rejected
by the code, whose lower bound `isAfter(moment('2000-01-01'))` is strict,
while "2000-01-02" is accepted; "2023-02-30" (not a real date) and the
future day "2023-06-16" are rejected as the claim states. -/
theorem dayDate_lower_bound_exclusive :
    dayDateRegexMatches "2000-01-01" = true ∧
    validCalendarDate 2000 1 1 = true ∧
    dayDateAccepted "2000-01-01" (dateSec 2023 6 15 + 43200) = false ∧
    dayDateAccepted "2000-01-02" (dateSec 2023 6 15 + 43200) = true ∧
    dayDateAccepted "2023-02-30" (dateSec 2023 6 15 + 43200) = false ∧
    dayDateAccepted "2023-06-16" (dateSec 2023 6 15 + 43200) = false ∧
    dayDateAccepted "2023-06-15" (dateSec 2023 6 15 + 43200) = true := by
  decide

theorem digitChar_not_hyphen (k : Nat) (h : k < 10) :
    (digitChar k == '-') = false := by
  interval_cases k <;> decide

theorem isDigitChar_digitChar (k : Nat) (h : k < 10) :
    isDigitChar (digitChar k) = true := by
  interval_cases k <;> decide

theorem digitVal_digitChar (k : Nat) (h : k < 10) :
    digitVal (digitChar k) = k := by
  interval_cases k <;> decide

theorem splitOnChar_ne_nil (sep : Char) (cs : List Char) :
    splitOnChar sep cs ≠ [] := by
  induction cs with
  | nil => simp [splitOnChar]
  | cons c rest ih =>
    unfold splitOnChar
    cases hsplit : splitOnChar sep rest with
    | nil => exact absurd hsplit ih
    | cons s ss =>
      by_cases h : (c == sep) = true
      · simp [h]
      · simp [h]

theorem splitOnChar_no_sep (sep : Char) (cs : List Char)
    (h : ∀ c ∈ cs, (c == sep) = false) : splitOnChar sep cs = [cs] := by
  induction cs with
  | nil => rfl
  | cons c rest ih =>
    unfold splitOnChar
    rw [ih fun x hx => h x (List.mem_cons_of_mem c hx)]
    rw [h c (List.mem_cons_self c rest)]
    rfl

theorem splitOnChar_append_sep (sep : Char) (cs rest : List Char)
    (h : ∀ c ∈ cs, (c == sep) = false) :
    splitOnChar sep (cs ++ sep :: rest) = cs :: splitOnChar sep rest := by
  induction cs with
  | nil =>
    show splitOnChar sep (sep :: rest) = [] :: splitOnChar sep rest
    rw [splitOnChar]
    cases hsplit : splitOnChar sep rest with
    | nil => exact absurd hsplit (splitOnChar_ne_nil sep rest)
    | cons s ss => simp
  | cons c cs' ih =>
    show splitOnChar sep (c :: (cs' ++ sep :: rest))
      = (c :: cs') :: splitOnChar sep rest
    rw [splitOnChar]
    rw [ih fun x hx => h x (List.mem_cons_of_mem c hx)]
    simp [h c (List.mem_cons_self c cs')]

theorem pad2_no_hyphen (n : Nat) (h : n ≤ 99) :
    ∀ c ∈ pad2 n, (c == '-') = false := by
  intro c hc
  rcases List.mem_cons.mp hc with h1 | hc'
  · subst h1; exact digitChar_not_hyphen _ (by omega)
  · rcases List.mem_cons.mp hc' with h2 | hc''
    · subst h2; exact digitChar_not_hyphen _ (Nat.mod_lt _ (by norm_num))
    · simp at hc''

theorem pad4_no_hyphen (n : Nat) :
    ∀ c ∈ pad4 n, (c == '-') = false := by
  intro c hc
  unfold pad4 at hc
  rcases List.mem_cons.mp hc with h1 | hc'
  · subst h1; exact digitChar_not_hyphen _ (Nat.mod_lt _ (by norm_num))
  · rcases List.mem_cons.mp hc' with h2 | hc'' 
    · subst h2; exact digitChar_not_hyphen _ (Nat.mod_lt _ (by norm_num))
    · rcases List.mem_cons.mp hc'' with h3 | hc'''
      · subst h3; exact digitChar_not_hyphen _ (Nat.mod_lt _ (by norm_num))
      · rcases List.mem_cons.mp hc''' with h4 | hc''''
        · subst h4; exact digitChar_not_hyphen _ (Nat.mod_lt _ (by norm_num))
        · simp at hc''''

theorem splitOnChar_renderDate (y m d : Nat) (hm : m ≤ 99) (hd : d ≤ 99) :
    splitOnChar '-' (renderDate y m d).toList = [pad4 y, pad2 m, pad2 d] := by
  show splitOnChar '-' (pad4 y ++ '-' :: (pad2 m ++ '-' :: pad2 d))
    = [pad4 y, pad2 m, pad2 d]
  rw [splitOnChar_append_sep _ _ _ (pad4_no_hyphen y)]
  rw [splitOnChar_append_sep _ _ _ (pad2_no_hyphen m hm)]
  rw [splitOnChar_no_sep _ _ (pad2_no_hyphen d hd)]

theorem yearSection_pad4 (y : Nat) : yearSection (pad4 y) = true := by
  unfold yearSection pad4
  refine Bool.and_eq_true_iff.mpr ⟨rfl, ?_⟩
  rw [List.all_eq_true]
  intro c hc
  rcases List.mem_cons.mp hc with h1 | hc'
  · subst h1; exact isDigitChar_digitChar _ (Nat.mod_lt _ (by norm_num))
  · rcases List.mem_cons.mp hc' with h2 | hc''
    · subst h2; exact isDigitChar_digitChar _ (Nat.mod_lt _ (by norm_num))
    · rcases List.mem_cons.mp hc'' with h3 | hc'''
      · subst h3; exact isDigitChar_digitChar _ (Nat.mod_lt _ (by norm_num))
      · rcases List.mem_cons.mp hc''' with h4 | hc''''
        · subst h4; exact isDigitChar_digitChar _ (Nat.mod_lt _ (by norm_num))
        · simp at hc''''

theorem monthSection_digits (a b : Nat) (ha : a < 10) (hb : b < 10) :
    monthSection [digitChar a, digitChar b]
      = decide (1 ≤ 10 * a + b ∧ 10 * a + b ≤ 12) := by
  interval_cases a <;> interval_cases b <;> decide

theorem daySection_digits (a b : Nat) (ha : a < 10) (hb : b < 10) :
    daySection [digitChar a, digitChar b]
      = decide (1 ≤ 10 * a + b ∧ 10 * a + b ≤ 31) := by
  interval_cases a <;> interval_cases b <;> decide

theorem monthSection_pad2 (m : Nat) (hm : m ≤ 99) :
    monthSection (pad2 m) = decide (1 ≤ m ∧ m ≤ 12) := by
  have hdiv : m / 10 < 10 := by omega
  have hmod : m % 10 < 10 := Nat.mod_lt _ (by norm_num)
  have hsum : 10 * (m / 10) + m % 10 = m := by omega
  rw [show pad2 m = [digitChar (m / 10), digitChar (m % 10)] from rfl]
  rw [monthSection_digits _ _ hdiv hmod, hsum]

theorem daySection_pad2 (d : Nat) (hd : d ≤ 99) :
    daySection (pad2 d) = decide (1 ≤ d ∧ d ≤ 31) := by
  have hdiv : d / 10 < 10 := by omega
  have hmod : d % 10 < 10 := Nat.mod_lt _ (by norm_num)
  have hsum : 10 * (d / 10) + d % 10 = d := by omega
  rw [show pad2 d = [digitChar (d / 10), digitChar (d % 10)] from rfl]
  rw [daySection_digits _ _ hdiv hmod, hsum]

theorem natOfDigits_pad2 (n : Nat) (h : n ≤ 99) : natOfDigits (pad2 n) = n := by
  unfold natOfDigits pad2
  simp only [List.foldl_cons, List.foldl_nil]
  rw [digitVal_digitChar _ (by omega), digitVal_digitChar _ (Nat.mod_lt _ (by norm_num))]
  omega

theorem natOfDigits_pad4 (n : Nat) (h : n ≤ 9999) : natOfDigits (pad4 n) = n := by
  unfold natOfDigits pad4
  simp only [List.foldl_cons, List.foldl_nil]
  rw [digitVal_digitChar _ (Nat.mod_lt _ (by norm_num)),
    digitVal_digitChar _ (Nat.mod_lt _ (by norm_num)),
    digitVal_digitChar _ (Nat.mod_lt _ (by norm_num)),
    digitVal_digitChar _ (Nat.mod_lt _ (by norm_num))]
  omega

theorem momentParse_renderDate (y m d : Nat)
    (hy : y ≤ 9999) (hm : m ≤ 99) (hd : d ≤ 99) :
    momentParse (renderDate y m d) = some (y, m, d) := by
  unfold momentParse
  rw [splitOnChar_renderDate y m d hm hd]
  have hall4 : (pad4 y).all isDigitChar = true := by
    have := yearSection_pad4 y
    unfold yearSection at this
    exact (Bool.and_eq_true_iff.mp this).2
  have hall2 : ∀ n : Nat, n ≤ 99 → (pad2 n).all isDigitChar = true := by
    intro n hn
    rw [List.all_eq_true]
    intro c hc
    rcases List.mem_cons.mp hc with h1 | hc'
    · subst h1; exact isDigitChar_digitChar _ (by omega)
    · rcases List.mem_cons.mp hc' with h2 | hc''
      · subst h2; exact isDigitChar_digitChar _ (Nat.mod_lt _ (by norm_num))
      · simp at hc''
  show (if (!(pad4 y).isEmpty && (pad4 y).all isDigitChar
        && !(pad2 m).isEmpty && (pad2 m).all isDigitChar
        && !(pad2 d).isEmpty && (pad2 d).all isDigitChar) = true then
      some (natOfDigits (pad4 y), natOfDigits (pad2 m), natOfDigits (pad2 d))
    else none) = some (y, m, d)
  rw [if_pos]
  · rw [natOfDigits_pad4 y hy, natOfDigits_pad2 m hm, natOfDigits_pad2 d hd]
  · rw [hall4, hall2 m hm, hall2 d hd]
    rfl

theorem dayDateRegexMatches_renderDate (y m d : Nat) (hm : m ≤ 99) (hd : d ≤ 99) :
    dayDateRegexMatches (renderDate y m d)
      = (yearSection (pad4 y) && monthSection (pad2 m) && daySection (pad2 d)) := by
  unfold dayDateRegexMatches
  rw [splitOnChar_renderDate y m d hm hd]

theorem daysInMonth_le_31 (y m : Nat) : daysInMonth y m ≤ 31 := by
  unfold daysInMonth
  split_ifs <;> omega

/-- C7 (amended): for every rendered date `YYYY-MM-DD` (components within
rendering range), the day date is accepted exactly when it is a real
calendar date whose midnight lies strictly inside the window — strictly
after the 2000-01-01 epoch floor and strictly before the current instant:
both bounds are exclusive, so "2023-02-30" and future days are rejected as
the claim states, but the day "2000-01-01" itself is rejected as well. -/
theorem dayDate_window (y m d now : Nat)
    (hy : y ≤ 9999) (hm : m ≤ 99) (hd : d ≤ 99) :
    dayDateAccepted (renderDate y m d) now
      = (validCalendarDate y m d && decide (dateSec y m d < now)
          && decide (dateSec 2000 1 1 < dateSec y m d)) := by
  unfold dayDateAccepted dayDateValidatorAccepts
  rw [dayDateRegexMatches_renderDate y m d hm hd,
      momentParse_renderDate y m d hy hm hd]
  rw [yearSection_pad4, monthSection_pad2 m hm, daySection_pad2 d hd]
  by_cases hv : validCalendarDate y m d = true
  · have hconj : (1 ≤ m ∧ m ≤ 12) ∧ 1 ≤ d ∧ d ≤ daysInMonth y m := by
      have h' := hv
      unfold validCalendarDate at h'
      simp only [Bool.and_eq_true, decide_eq_true_eq] at h'
      exact ⟨⟨h'.1.1.1, h'.1.1.2⟩, h'.1.2, h'.2⟩
    have h1 : decide (1 ≤ m ∧ m ≤ 12) = true := by
      simp [hconj.1.1, hconj.1.2]
    have h2 : decide (1 ≤ d ∧ d ≤ 31) = true := by
      have h31 := daysInMonth_le_31 y m
      have := hconj.2
      simp only [decide_eq_true_eq]
      omega
    rw [h1, h2]
    simp [hv]
  · have hv' : validCalendarDate y m d = false := by simpa using hv
    simp [hv']

/-- Witness for C7 at a concrete input: the rendered day 2023-06-14, with
the current instant at the midnight of 2023-06-15, is accepted exactly as
the window equation states. -/
theorem dayDate_window_witness :
    dayDateAccepted (renderDate 2023 6 14) (dateSec 2023 6 15)
      = (validCalendarDate 2023 6 14
          && decide (dateSec 2023 6 14 < dateSec 2023 6 15)
          && decide (dateSec 2000 1 1 < dateSec 2023 6 14)) :=
  dayDate_window 2023 6 14 (dateSec 2023 6 15)
    (by decide) (by decide) (by decide)
